import Mathlib

set_option linter.unusedVariables false

/-!
Verification development for the external-dns-docker reconciliation daemon.

The Go sources are shallowly embedded: pure Go functions become Lean
functions, Go slices become lists, Go maps over string keys become
association lists with unique keys (insertion replaces in place), and the
arbitrary iteration order of a Go map `range` is made explicit as a
parameter that is a permutation of the map's entries.  Machine integers
(`int`, `int64`, `time.Duration`) are embedded as `Int` with explicit
wrap-around (`% 2 ^ 64`) where overflow can occur.
-/

/-! ## Models of Go standard-library helpers (`strings`, `sort`, `net`, `dns`) -/

/-- Model of Go `strings.HasPrefix s pre`. -/
def goHasPre (s pre : String) : Bool := pre.data.isPrefixOf s.data

/-- Model of Go `strings.TrimPrefix s pre`. -/
def goTrimPre (s pre : String) : String :=
  if goHasPre s pre then String.mk (s.data.drop pre.data.length) else s

/-- Model of Go `strings.HasSuffix s suf`. -/
def goHasSuf (s suf : String) : Bool := suf.data.isSuffixOf s.data

/-- Model of Go `strings.TrimSuffix s suf`. -/
def goTrimSuf (s suf : String) : String :=
  if goHasSuf s suf then String.mk (s.data.take (s.data.length - suf.data.length)) else s

/-- UTF-8 encoded size of one character, as Go `len` counts it. -/
def charUtf8Size (c : Char) : Nat :=
  if c.val < 0x80 then 1 else if c.val < 0x800 then 2 else if c.val < 0x10000 then 3 else 4

/-- Model of Go `len(s)` on a string: the UTF-8 byte length. -/
def goLen (s : String) : Nat := (s.data.map charUtf8Size).sum

/-- Byte-order comparison of single characters (UTF-8 byte order coincides
with code-point order). -/
def charLe (a b : Char) : Bool := a.val ≤ b.val

/-- Lexicographic comparison of character lists, modelling Go's byte-wise
string comparison. -/
def strLeAux : List Char → List Char → Bool
  | [], _ => true
  | _ :: _, [] => false
  | a :: as, b :: bs => if a = b then strLeAux as bs else charLe a b

/-- Model of Go `a <= b` on strings. -/
def goStrLe (a b : String) : Bool := strLeAux a.data b.data

/-- Insert a string into a sorted list, keeping it sorted. -/
def goInsert (x : String) : List String → List String
  | [] => [x]
  | y :: ys => if goStrLe x y then x :: y :: ys else y :: goInsert x ys

/-- Model of Go `sort.Strings`: lexicographic byte order is a total order on
strings, so the sorted permutation is unique and any correct sorting
algorithm (here insertion sort) computes it. -/
def goSortStrings : List String → List String
  | [] => []
  | x :: xs => goInsert x (goSortStrings xs)

/-- Decimal digit test. -/
def isDigit (c : Char) : Bool := '0' ≤ c && c ≤ '9'

/-- Hexadecimal digit test. -/
def isHexDigit (c : Char) : Bool :=
  isDigit c || ('a' ≤ c && c ≤ 'f') || ('A' ≤ c && c ≤ 'F')

/-- Numeric value of a list of decimal digits. -/
def decValue (cs : List Char) : Nat :=
  cs.foldl (fun acc c => 10 * acc + (c.toNat - '0'.toNat)) 0

/-- One dotted-quad octet as Go `net.ParseIP` accepts it: one to three
decimal digits, value at most 255, no extraneous leading zero. -/
def parseDecOctet (cs : List Char) : Option Nat :=
  if cs = [] then none
  else if 3 < cs.length then none
  else if !cs.all isDigit then none
  else if 1 < cs.length && cs.head? = some '0' then none
  else if 255 < decValue cs then none
  else some (decValue cs)

/-- A parsed Go `net.IP`, restricted to the textual forms this daemon
produces: a dotted-quad IPv4 address or an IPv6 literal kept as text. -/
inductive GoIP where
  | v4 (a b c d : Nat)
  | v6 (raw : String)
deriving DecidableEq

/-- Dotted-quad IPv4 parsing, modelling the IPv4 case of `net.ParseIP`. -/
def goParseIPv4 (s : String) : Option GoIP :=
  match (s.data.splitOn '.').mapM parseDecOctet with
  | some [a, b, c, d] => some (.v4 a b c d)
  | _ => none

/-- Rough validity test for textual IPv6 literals: colon-separated groups of
at most four hex digits, at most eight groups, with at most one `::` run of
empty groups.  Models the IPv6 acceptance of `net.ParseIP` on the literals
this code base handles. -/
def looksLikeIPv6 (s : String) : Bool :=
  let gs := s.data.splitOn ':'
  s.data.contains ':' &&
    gs.all (fun g => g.length ≤ 4 && g.all isHexDigit) &&
    gs.length ≤ 9 &&
    (gs.countP (·.isEmpty) ≤ 2) &&
    (gs.countP (·.isEmpty) = 0 → gs.length = 8)

/-- Model of Go `net.ParseIP`: IPv4 dotted quads parse as `v4`, IPv6
literals as `v6`, anything else fails. -/
def goParseIP (s : String) : Option GoIP :=
  match goParseIPv4 s with
  | some ip => some ip
  | none => if looksLikeIPv6 s then some (.v6 s) else none

/-- Model of Go `net.IP.To4` on a parsed address (with `To4` of `nil`
staying `nil`). -/
def goTo4 : Option GoIP → Option (Nat × Nat × Nat × Nat)
  | some (.v4 a b c d) => some (a, b, c, d)
  | _ => none

/-- Model of `dns.Fqdn`: append a trailing dot unless one is present. -/
def goFqdn (s : String) : String := if goHasSuf s "." then s else s ++ "."

/-! ## Endpoint model (package `endpoint`) -/

/-- DNS record type constant `endpoint.RecordTypeA`. -/
def RecordTypeA : String := "A"

/-- DNS record type constant `endpoint.RecordTypeAAAA`. -/
def RecordTypeAAAA : String := "AAAA"

/-- DNS record type constant `endpoint.RecordTypeCNAME`. -/
def RecordTypeCNAME : String := "CNAME"

/-- DNS record type constant `endpoint.RecordTypeTXT`. -/
def RecordTypeTXT : String := "TXT"

/-- `endpoint.DefaultTTL`. -/
def DefaultTTL : Int := 300

/-- `endpoint.Endpoint`: one desired DNS record.  Go's `map[string]string`
label map is embedded as an association list (unused by the plan logic). -/
structure Endpoint where
  DNSName : String
  Targets : List String
  RecordType : String
  TTL : Int
  Labels : List (String × String)
deriving DecidableEq

/-- `endpoint.New`: TTL `0` is replaced by `DefaultTTL`, absent labels by an
empty map. -/
def Endpoint.New (dnsName : String) (targets : List String) (recordType : String)
    (ttl : Int) (labels : Option (List (String × String))) : Endpoint :=
  { DNSName := dnsName
    Targets := targets
    RecordType := recordType
    TTL := if ttl = 0 then DefaultTTL else ttl
    Labels := labels.getD [] }

/-! ## Plan engine (package `plan`) -/

/-- Prepended to a managed record's DNS name to form the companion ownership
TXT record name (source constant `ownerPrefix`; renamed for this file). -/
def ownerPre : String := "external-dns-docker-owner."

/-- `plan.DefaultOwnerID`. -/
def DefaultOwnerID : String := "external-dns-docker"

/-- `plan.ownershipTTL`. -/
def ownershipTTL : Int := 300

/-- `plan.ownershipValue`: the TXT value identifying ownership. -/
def ownershipValue (ownerID : String) : String :=
  "heritage=external-dns-docker,external-dns-docker/owner=" ++ ownerID

/-- `plan.ownershipName`: DNS name of the ownership TXT record. -/
def ownershipName (dnsName : String) : String := ownerPre ++ dnsName

/-- `plan.Plan`. -/
structure Plan where
  ownerID : String
deriving DecidableEq

/-- `plan.New`: empty owner IDs fall back to `DefaultOwnerID`. -/
def Plan.NewPlan (ownerID : String) : Plan :=
  if ownerID = "" then { ownerID := DefaultOwnerID } else { ownerID := ownerID }

/-- `plan.Changes`: the four parallel operation sequences. -/
structure Changes where
  Create : List Endpoint := []
  UpdateOld : List Endpoint := []
  UpdateNew : List Endpoint := []
  Delete : List Endpoint := []
deriving DecidableEq

/-- `Changes.IsEmpty`. -/
def Changes.IsEmpty (c : Changes) : Bool :=
  c.Create.length == 0 && c.UpdateOld.length == 0 &&
    c.UpdateNew.length == 0 && c.Delete.length == 0

/-- `plan.epKey`: the map key `DNSName + "|" + RecordType`. -/
def epKey (ep : Endpoint) : String := ep.DNSName ++ "|" ++ ep.RecordType

/-- `plan.sortedCopy`. -/
def sortedCopy (s : List String) : List String := goSortStrings s

/-- `plan.endpointsEqual`: equal TTLs, equal target counts, and equal sorted
target lists (the Go element-wise loop over two equal-length lists is list
equality). -/
def endpointsEqual (a b : Endpoint) : Bool :=
  a.TTL == b.TTL && a.Targets.length == b.Targets.length &&
    sortedCopy a.Targets == sortedCopy b.Targets

/-- `plan.filterOwnershipTXTs`: keep endpoints that are not ownership TXT
records. -/
def filterOwnershipTXTs (eps : List Endpoint) : List Endpoint :=
  eps.filter (fun ep => !(ep.RecordType == RecordTypeTXT && goHasPre ep.DNSName ownerPre))

/-- Go map assignment `m[k] = v`: replace the entry in place when the key is
present, append otherwise. -/
def mapUpsert (m : List (String × Endpoint)) (k : String) (v : Endpoint) :
    List (String × Endpoint) :=
  if m.any (fun p => p.1 = k) then m.map (fun p => if p.1 = k then (k, v) else p)
  else m ++ [(k, v)]

/-- Go map lookup `m[k]`. -/
def mapGet (m : List (String × Endpoint)) (k : String) : Option Endpoint :=
  (m.find? (fun p => p.1 = k)).map (fun p => p.2)

/-- `plan.indexEndpoints`: build the map from `epKey` to endpoint,
last-wins on duplicate keys. -/
def indexEndpoints (eps : List Endpoint) : List (String × Endpoint) :=
  eps.foldl (fun idx ep => mapUpsert idx (epKey ep) ep) []

/-- `Plan.buildOwnedSet`: the DNS names whose ownership TXT record in
`current` carries this plan's owner value (a `map[string]bool` used only
for membership, embedded as a list of names). -/
def Plan.buildOwnedSet (p : Plan) (current : List Endpoint) : List String :=
  current.foldl (fun owned ep =>
    if ep.RecordType == RecordTypeTXT && goHasPre ep.DNSName ownerPre &&
        ep.Targets.contains (ownershipValue p.ownerID)
    then owned ++ [goTrimPre ep.DNSName ownerPre] else owned) []

/-- `Plan.ownershipTXTFor`: the companion ownership TXT endpoint. -/
def Plan.ownershipTXTFor (p : Plan) (dnsName : String) : Endpoint :=
  Endpoint.New (ownershipName dnsName) [ownershipValue p.ownerID]
    RecordTypeTXT ownershipTTL none

/-- Step 4 of `Plan.Calculate`, one desired entry: create new records with
their sidecar, update owned changed records, skip foreign or equal ones. -/
def Plan.stepDesired (p : Plan) (owned : List String)
    (currentIdx : List (String × Endpoint)) (acc : Changes) (kv : String × Endpoint) :
    Changes :=
  let want := kv.2
  match mapGet currentIdx kv.1 with
  | none =>
    { acc with Create := acc.Create ++ [want, p.ownershipTXTFor want.DNSName] }
  | some hv =>
    if !owned.contains want.DNSName then acc
    else if !endpointsEqual hv want then
      { acc with UpdateOld := acc.UpdateOld ++ [hv], UpdateNew := acc.UpdateNew ++ [want] }
    else acc

/-- Step 5 of `Plan.Calculate`, one current entry: delete owned records that
are no longer desired, together with their sidecar. -/
def Plan.stepCurrent (p : Plan) (owned : List String)
    (desiredIdx : List (String × Endpoint)) (acc : Changes) (kv : String × Endpoint) :
    Changes :=
  let hv := kv.2
  if (mapGet desiredIdx kv.1).isSome then acc
  else if !owned.contains hv.DNSName then acc
  else { acc with Delete := acc.Delete ++ [hv, p.ownershipTXTFor hv.DNSName] }

/-- `Plan.Calculate` with the iteration order of the two Go map `range`
loops made explicit: `dIter` and `cIter` are the entries of `desiredIdx` and
`currentIdx` in the (arbitrary) order the runtime visits them. -/
def Plan.calculateOn (p : Plan) (current : List Endpoint)
    (dIter cIter : List (String × Endpoint)) : Changes :=
  let owned := p.buildOwnedSet current
  let afterDesired := dIter.foldl (p.stepDesired owned cIter) {}
  cIter.foldl (p.stepCurrent owned dIter) afterDesired

/-- `Plan.Calculate` at the canonical (insertion-order) map enumeration.
`desiredIdx` is built over `desired` unfiltered; `currentIdx` over
`current` with ownership TXT records filtered out. -/
def Plan.Calculate (p : Plan) (desired current : List Endpoint) : Changes :=
  p.calculateOn current (indexEndpoints desired)
    (indexEndpoints (filterOwnershipTXTs current))

/-! ## Plan engine: characterization lemmas -/

/-- Contribution of one desired entry to `Create`. -/
def Plan.createBlock (p : Plan) (currentIdx : List (String × Endpoint))
    (kv : String × Endpoint) : List Endpoint :=
  match mapGet currentIdx kv.1 with
  | none => [kv.2, p.ownershipTXTFor kv.2.DNSName]
  | some _ => []

/-- Contribution of one desired entry to the update pair sequences. -/
def Plan.updBlock (p : Plan) (owned : List String)
    (currentIdx : List (String × Endpoint)) (kv : String × Endpoint) :
    List (Endpoint × Endpoint) :=
  match mapGet currentIdx kv.1 with
  | none => []
  | some hv =>
    if owned.contains kv.2.DNSName && !endpointsEqual hv kv.2 then [(hv, kv.2)] else []

/-- Contribution of one current entry to `Delete`. -/
def Plan.delBlock (p : Plan) (owned : List String)
    (desiredIdx : List (String × Endpoint)) (kv : String × Endpoint) : List Endpoint :=
  if (mapGet desiredIdx kv.1).isSome then []
  else if owned.contains kv.2.DNSName then [kv.2, p.ownershipTXTFor kv.2.DNSName]
  else []

lemma foldl_stepDesired (p : Plan) (owned : List String)
    (cIdx : List (String × Endpoint)) (dIter : List (String × Endpoint)) :
    ∀ acc : Changes, dIter.foldl (p.stepDesired owned cIdx) acc =
      { Create := acc.Create ++ (dIter.map (p.createBlock cIdx)).flatten
        UpdateOld := acc.UpdateOld ++ ((dIter.map (p.updBlock owned cIdx)).flatten).map Prod.fst
        UpdateNew := acc.UpdateNew ++ ((dIter.map (p.updBlock owned cIdx)).flatten).map Prod.snd
        Delete := acc.Delete } := by
  induction dIter with
  | nil => intro acc; simp
  | cons kv rest ih =>
    intro acc
    rw [List.foldl_cons, ih]
    cases h : mapGet cIdx kv.1 with
    | none =>
      simp [Plan.stepDesired, Plan.createBlock, Plan.updBlock, h]
    | some hv =>
      by_cases h1 : kv.2.DNSName ∈ owned
      · by_cases h2 : endpointsEqual hv kv.2
        · simp [Plan.stepDesired, Plan.createBlock, Plan.updBlock, h, h1, h2]
        · simp [Plan.stepDesired, Plan.createBlock, Plan.updBlock, h, h1, h2]
      · simp [Plan.stepDesired, Plan.createBlock, Plan.updBlock, h, h1]

lemma foldl_stepCurrent (p : Plan) (owned : List String)
    (dIdx : List (String × Endpoint)) (cIter : List (String × Endpoint)) :
    ∀ acc : Changes, cIter.foldl (p.stepCurrent owned dIdx) acc =
      { acc with Delete := acc.Delete ++ (cIter.map (p.delBlock owned dIdx)).flatten } := by
  induction cIter with
  | nil => intro acc; simp
  | cons kv rest ih =>
    intro acc
    rw [List.foldl_cons, ih]
    by_cases h : (mapGet dIdx kv.1).isSome
    · simp [Plan.stepCurrent, Plan.delBlock, h]
    · by_cases h1 : kv.2.DNSName ∈ owned
      · simp [Plan.stepCurrent, Plan.delBlock, h, h1]
      · simp [Plan.stepCurrent, Plan.delBlock, h, h1]

lemma calculateOn_eq (p : Plan) (current : List Endpoint)
    (dIter cIter : List (String × Endpoint)) :
    p.calculateOn current dIter cIter =
      { Create := (dIter.map (p.createBlock cIter)).flatten
        UpdateOld :=
          ((dIter.map (p.updBlock (p.buildOwnedSet current) cIter)).flatten).map Prod.fst
        UpdateNew :=
          ((dIter.map (p.updBlock (p.buildOwnedSet current) cIter)).flatten).map Prod.snd
        Delete := ((cIter.map (p.delBlock (p.buildOwnedSet current) dIter)).flatten) } := by
  simp [Plan.calculateOn, foldl_stepDesired, foldl_stepCurrent]

/-- Keys of an association-list map. -/
def mapKeys (m : List (String × Endpoint)) : List String := m.map Prod.fst

lemma mapKeys_mem_iff (m : List (String × Endpoint)) (k : String) :
    k ∈ mapKeys m ↔ ∃ v, (k, v) ∈ m := by
  unfold mapKeys
  constructor
  · intro h
    rcases List.mem_map.mp h with ⟨p, hp, hk⟩
    exact ⟨p.2, by cases p; cases hk; exact hp⟩
  · rintro ⟨v, hv⟩
    exact List.mem_map.mpr ⟨(k, v), hv, rfl⟩

lemma any_key_iff (m : List (String × Endpoint)) (k : String) :
    m.any (fun p => p.1 = k) = true ↔ k ∈ mapKeys m := by
  rw [List.any_eq_true, mapKeys_mem_iff]
  constructor
  · rintro ⟨p, hp, hk⟩
    exact ⟨p.2, by cases p; cases (by simpa using hk : _ = k); exact hp⟩
  · rintro ⟨v, hv⟩
    exact ⟨(k, v), hv, by simp⟩

lemma mapUpsert_keys (m : List (String × Endpoint)) (k : String) (v : Endpoint) :
    mapKeys (mapUpsert m k v) =
      if m.any (fun p => p.1 = k) then mapKeys m else mapKeys m ++ [k] := by
  unfold mapUpsert
  by_cases h : m.any (fun p => p.1 = k)
  · rw [if_pos h, if_pos h]
    unfold mapKeys
    rw [List.map_map]
    refine List.map_congr_left ?_
    intro p hp
    by_cases hk : p.1 = k
    · simp [hk]
    · simp [hk]
  · rw [if_neg h, if_neg h]
    simp [mapKeys]

lemma mapUpsert_keys_nodup (m : List (String × Endpoint)) (k : String) (v : Endpoint)
    (h : (mapKeys m).Nodup) : (mapKeys (mapUpsert m k v)).Nodup := by
  rw [mapUpsert_keys]
  by_cases hk : m.any (fun p => p.1 = k)
  · rw [if_pos hk]; exact h
  · rw [if_neg hk]
    have hk' : k ∉ mapKeys m := fun hmem => hk ((any_key_iff m k).mpr hmem)
    rw [List.nodup_append]
    refine ⟨h, List.nodup_singleton k, ?_⟩
    intro a ha hb
    rw [List.mem_singleton] at hb
    exact hk' (hb ▸ ha)

lemma mapUpsert_mem (m : List (String × Endpoint)) (k : String) (v : Endpoint)
    (kv : String × Endpoint) (h : kv ∈ mapUpsert m k v) : kv ∈ m ∨ kv = (k, v) := by
  unfold mapUpsert at h
  by_cases hk : m.any (fun p => p.1 = k)
  · rw [if_pos hk] at h
    rcases List.mem_map.mp h with ⟨p, hp, he⟩
    by_cases hpk : p.1 = k
    · right; rw [if_pos hpk] at he; exact he.symm
    · left; rw [if_neg hpk] at he; exact he ▸ hp
  · rw [if_neg hk] at h
    rcases List.mem_append.mp h with h1 | h1
    · exact Or.inl h1
    · exact Or.inr (List.mem_singleton.mp h1)

lemma indexEndpoints_aux_mem (E : List Endpoint) :
    ∀ (eps : List Endpoint) (m : List (String × Endpoint)),
      (∀ kv ∈ m, kv.1 = epKey kv.2 ∧ kv.2 ∈ E) → (∀ ep ∈ eps, ep ∈ E) →
      ∀ kv ∈ eps.foldl (fun idx ep => mapUpsert idx (epKey ep) ep) m,
        kv.1 = epKey kv.2 ∧ kv.2 ∈ E := by
  intro eps
  induction eps with
  | nil => intro m hm _ kv hkv; exact hm kv hkv
  | cons ep rest ih =>
    intro m hm heps kv hkv
    refine ih (mapUpsert m (epKey ep) ep) ?_
      (fun e he => heps e (List.mem_cons_of_mem _ he)) kv hkv
    intro kv' hkv'
    rcases mapUpsert_mem m (epKey ep) ep kv' hkv' with h | h
    · exact hm kv' h
    · subst h; exact ⟨rfl, heps ep (List.mem_cons_self _ _)⟩

lemma indexEndpoints_mem (eps : List Endpoint) (kv : String × Endpoint)
    (h : kv ∈ indexEndpoints eps) : kv.1 = epKey kv.2 ∧ kv.2 ∈ eps :=
  indexEndpoints_aux_mem eps eps [] (by simp) (fun _ he => he) kv h

lemma indexEndpoints_keys_nodup (eps : List Endpoint) :
    (mapKeys (indexEndpoints eps)).Nodup := by
  suffices h : ∀ (l : List Endpoint) (m : List (String × Endpoint)), (mapKeys m).Nodup →
      (mapKeys (l.foldl (fun idx ep => mapUpsert idx (epKey ep) ep) m)).Nodup by
    exact h eps [] (by simp [mapKeys])
  intro l
  induction l with
  | nil => intro m hm; exact hm
  | cons ep rest ih =>
    intro m hm
    exact ih (mapUpsert m (epKey ep) ep) (mapUpsert_keys_nodup m (epKey ep) ep hm)

lemma mapGet_eq_some_of_mem (m : List (String × Endpoint)) (k : String) (v : Endpoint)
    (hnd : (mapKeys m).Nodup) (h : (k, v) ∈ m) : mapGet m k = some v := by
  induction m with
  | nil => cases h
  | cons kv rest ih =>
    have hnd0 : (kv.1 :: mapKeys rest).Nodup := hnd
    have hnd' : kv.1 ∉ mapKeys rest ∧ (mapKeys rest).Nodup := List.nodup_cons.mp hnd0
    rcases List.mem_cons.mp h with he | hrest
    · rw [← he]; simp [mapGet]
    · have hk : ¬kv.1 = k := by
        intro hkk
        exact hnd'.1 (hkk ▸ (mapKeys_mem_iff rest k).mpr ⟨v, hrest⟩)
      have := ih hnd'.2 hrest
      simpa [mapGet, List.find?_cons, hk] using this

lemma mapGet_mem (m : List (String × Endpoint)) (k : String) (v : Endpoint)
    (h : mapGet m k = some v) : (k, v) ∈ m := by
  unfold mapGet at h
  cases hf : m.find? (fun p => p.1 = k) with
  | none => rw [hf] at h; cases h
  | some p =>
    have hp : p.1 = k := by simpa using List.find?_some hf
    have hm := List.mem_of_find?_eq_some hf
    rw [hf] at h
    have hv : p.2 = v := by simpa using h
    have : p = (k, v) := by cases p; simp_all
    exact this ▸ hm

lemma mapGet_eq_none_iff (m : List (String × Endpoint)) (k : String) :
    mapGet m k = none ↔ k ∉ mapKeys m := by
  unfold mapGet
  rw [Option.map_eq_none', List.find?_eq_none]
  constructor
  · intro h hmem
    rcases (mapKeys_mem_iff m k).mp hmem with ⟨v, hv⟩
    exact absurd (by simp) (h (k, v) hv)
  · intro h p hp
    simp only [decide_eq_true_eq]
    intro hk
    exact h ((mapKeys_mem_iff m k).mpr ⟨p.2, by cases p; cases hk; exact hp⟩)

lemma mapGet_perm (m1 m2 : List (String × Endpoint)) (h : m1.Perm m2)
    (hnd : (mapKeys m2).Nodup) (k : String) : mapGet m1 k = mapGet m2 k := by
  cases hg : mapGet m1 k with
  | none =>
    have hk : k ∉ mapKeys m1 := (mapGet_eq_none_iff m1 k).mp hg
    have hk2 : k ∉ mapKeys m2 := fun hmem => hk ((h.map Prod.fst).mem_iff.mpr hmem)
    exact ((mapGet_eq_none_iff m2 k).mpr hk2).symm
  | some v =>
    have hm : (k, v) ∈ m2 := h.mem_iff.mp (mapGet_mem m1 k v hg)
    exact (mapGet_eq_some_of_mem m2 k v hnd hm).symm

lemma mapGet_map_replace (k k' : String) (v : Endpoint) (hne : k' ≠ k) :
    ∀ m : List (String × Endpoint),
      mapGet (m.map (fun p => if p.1 = k then (k, v) else p)) k' = mapGet m k' := by
  intro m
  induction m with
  | nil => rfl
  | cons p rest ih =>
    by_cases hp : p.1 = k
    · have hh : ¬p.1 = k' := fun hc => hne (hc ▸ hp)
      simp only [List.map_cons, if_pos hp]
      unfold mapGet
      rw [List.find?_cons, List.find?_cons]
      have : (decide ((k, v).1 = k')) = false := by
        simp only [decide_eq_false_iff_not]
        exact fun hc => hne hc.symm
      rw [this]
      have : (decide (p.1 = k')) = false := by simp [hh]
      rw [this]
      exact ih
    · simp only [List.map_cons, if_neg hp]
      unfold mapGet
      rw [List.find?_cons, List.find?_cons]
      by_cases hpk : p.1 = k'
      · simp [hpk]
      · simp only [hpk, decide_False]
        exact ih

lemma mapUpsert_cons_ne (p : String × Endpoint) (rest : List (String × Endpoint))
    (k : String) (v : Endpoint) (hp : ¬p.1 = k) :
    mapUpsert (p :: rest) k v = p :: mapUpsert rest k v := by
  unfold mapUpsert
  have hany : (p :: rest).any (fun q => q.1 = k) = rest.any (fun q => q.1 = k) := by
    simp [hp]
  by_cases h : rest.any (fun q => q.1 = k)
  · rw [hany, if_pos h, if_pos h]
    simp [if_neg hp]
  · rw [hany, if_neg h, if_neg h]
    simp

lemma mapGet_upsert_same (m : List (String × Endpoint)) (k : String) (v : Endpoint) :
    mapGet (mapUpsert m k v) k = some v := by
  induction m with
  | nil => simp [mapUpsert, mapGet]
  | cons p rest ih =>
    by_cases hp : p.1 = k
    · have hany : (p :: rest).any (fun q => q.1 = k) = true := by simp [hp]
      unfold mapUpsert
      rw [if_pos hany]
      simp only [List.map_cons, if_pos hp]
      simp [mapGet]
    · rw [mapUpsert_cons_ne p rest k v hp]
      unfold mapGet
      rw [List.find?_cons]
      have : (decide (p.1 = k)) = false := by simp [hp]
      rw [this]
      exact ih

lemma mapGet_upsert_other (m : List (String × Endpoint)) (k k' : String) (v : Endpoint)
    (hne : k' ≠ k) : mapGet (mapUpsert m k v) k' = mapGet m k' := by
  induction m with
  | nil =>
    have : (decide (k = k')) = false := by
      simp only [decide_eq_false_iff_not]
      exact fun hc => hne hc.symm
    simp [mapUpsert, mapGet, this]
  | cons p rest ih =>
    by_cases hp : p.1 = k
    · have hany : (p :: rest).any (fun q => q.1 = k) = true := by simp [hp]
      unfold mapUpsert
      rw [if_pos hany]
      exact mapGet_map_replace k k' v hne (p :: rest)
    · rw [mapUpsert_cons_ne p rest k v hp]
      unfold mapGet
      rw [List.find?_cons, List.find?_cons]
      by_cases hpk : p.1 = k'
      · simp [hpk]
      · simp only [hpk, decide_False]
        exact ih

lemma mapGet_foldl_no_key (k : String) :
    ∀ (eps : List Endpoint) (m : List (String × Endpoint)),
      (∀ e ∈ eps, epKey e ≠ k) →
      mapGet (eps.foldl (fun idx ep => mapUpsert idx (epKey ep) ep) m) k = mapGet m k := by
  intro eps
  induction eps with
  | nil => intro m _; rfl
  | cons ep rest ih =>
    intro m h
    rw [List.foldl_cons, ih _ (fun e he => h e (List.mem_cons_of_mem _ he))]
    exact mapGet_upsert_other m (epKey ep) k ep
      (fun hc => h ep (List.mem_cons_self _ _) hc.symm)

/-- Last-wins indexing: the value stored for a key is the last endpoint in
the input bearing that key. -/
lemma indexEndpoints_last_wins (eps1 eps2 : List Endpoint) (ep : Endpoint)
    (h2 : ∀ e ∈ eps2, epKey e ≠ epKey ep) :
    mapGet (indexEndpoints (eps1 ++ ep :: eps2)) (epKey ep) = some ep := by
  unfold indexEndpoints
  rw [List.foldl_append, List.foldl_cons]
  rw [mapGet_foldl_no_key (epKey ep) eps2 _ h2]
  exact mapGet_upsert_same _ (epKey ep) ep

lemma sep_append_inj (c : Char) :
    ∀ (a b x y : List Char), c ∉ a → c ∉ b → a ++ c :: x = b ++ c :: y →
      a = b ∧ x = y := by
  intro a
  induction a with
  | nil =>
    intro b x y _ hb h
    cases b with
    | nil => simpa using h
    | cons d bs =>
      rw [List.nil_append, List.cons_append] at h
      have : c = d := (List.cons.injEq _ _ _ _ ▸ h).1
      exact absurd (this ▸ List.mem_cons_self d bs) hb
  | cons d as ih =>
    intro b x y ha hb h
    cases b with
    | nil =>
      rw [List.cons_append, List.nil_append] at h
      have : d = c := (List.cons.injEq _ _ _ _ ▸ h).1
      exact absurd (this ▸ List.mem_cons_self d as) (this ▸ ha)
    | cons e bs =>
      rw [List.cons_append, List.cons_append] at h
      have h1 := (List.cons.injEq _ _ _ _ ▸ h).1
      have h2 := (List.cons.injEq _ _ _ _ ▸ h).2
      have ha' : c ∉ as := fun hc => ha (List.mem_cons_of_mem _ hc)
      have hb' : c ∉ bs := fun hc => hb (List.mem_cons_of_mem _ hc)
      obtain ⟨hab, hxy⟩ := ih bs x y ha' hb' h2
      exact ⟨by rw [h1, hab], hxy⟩

lemma string_data_inj (s t : String) (h : s.data = t.data) : s = t := by
  cases s; cases t; cases h; rfl

lemma epKey_data (ep : Endpoint) :
    (epKey ep).data = ep.DNSName.data ++ '|' :: ep.RecordType.data := by
  unfold epKey
  rw [String.data_append, String.data_append]
  simp

/-- Two endpoints with pipe-free DNS names and equal index keys have equal
DNS names. -/
lemma epKey_inj_name (a b : Endpoint) (ha : '|' ∉ a.DNSName.data)
    (hb : '|' ∉ b.DNSName.data) (h : epKey a = epKey b) : a.DNSName = b.DNSName := by
  have hd : (epKey a).data = (epKey b).data := by rw [h]
  rw [epKey_data, epKey_data] at hd
  exact string_data_inj _ _ (sep_append_inj '|' _ _ _ _ ha hb hd).1

/-! ## Concrete fixtures for counterexamples and witnesses -/

/-- The plan with the default owner ID, as `plan.New("")` builds it. -/
def planDefault : Plan := Plan.NewPlan ""

/-- A managed A record. -/
def epApp : Endpoint := Endpoint.New "app.example.com" ["1.2.3.4"] RecordTypeA 300 none

/-- The same record with a changed target. -/
def epAppNew : Endpoint := Endpoint.New "app.example.com" ["5.6.7.8"] RecordTypeA 300 none

/-- A second managed A record under a different name. -/
def epB : Endpoint := Endpoint.New "b.example.com" ["2.2.2.2"] RecordTypeA 300 none

/-- The ownership sidecar for `app.example.com` under the default owner. -/
def sidecarApp : Endpoint :=
  Endpoint.New "external-dns-docker-owner.app.example.com"
    ["heritage=external-dns-docker,external-dns-docker/owner=external-dns-docker"]
    RecordTypeTXT 300 none

/-- A desired endpoint that itself looks like an ownership sidecar. -/
def scDesired : Endpoint :=
  Endpoint.New "external-dns-docker-owner.app.example.com" ["x"] RecordTypeTXT 300 none

/-! ## C1: ownership safety of the plan engine -/

/-- C1, counterexample: with `desired = []` and `current` holding an owned A
record plus its sidecar, `Plan.Calculate` puts the generated ownership TXT
endpoint itself into `Delete`, and that endpoint's DNS name
(`external-dns-docker-owner.app.example.com`) is not in the owned set built
from `current` — so not every endpoint in `Delete` has a matching ownership
sidecar in `current`. -/
theorem calculate_delete_sidecar_not_owned :
    (planDefault.Calculate [] [epApp, sidecarApp]).Delete.get? 1 =
      some (planDefault.ownershipTXTFor "app.example.com") ∧
    (planDefault.buildOwnedSet [epApp, sidecarApp]).contains
      (planDefault.ownershipTXTFor "app.example.com").DNSName = false := by
  decide

lemma updBlock_mem_elim (p : Plan) (owned : List String)
    (cIdx : List (String × Endpoint)) (kv : String × Endpoint)
    (pair : Endpoint × Endpoint) (h : pair ∈ p.updBlock owned cIdx kv) :
    ∃ hv, mapGet cIdx kv.1 = some hv ∧ pair = (hv, kv.2) ∧
      kv.2.DNSName ∈ owned ∧ endpointsEqual hv kv.2 = false := by
  cases hm : mapGet cIdx kv.1 with
  | none => simp [Plan.updBlock, hm] at h
  | some hv =>
    simp only [Plan.updBlock, hm] at h
    by_cases hcond : (owned.contains kv.2.DNSName && !endpointsEqual hv kv.2) = true
    · rw [if_pos hcond] at h
      rw [List.mem_singleton] at h
      obtain ⟨h1, h2⟩ := (Bool.and_eq_true _ _).mp hcond
      exact ⟨hv, rfl, h, by simpa using h1, by simpa using h2⟩
    · rw [if_neg hcond] at h
      cases h

lemma delBlock_mem_elim (p : Plan) (owned : List String)
    (dIdx : List (String × Endpoint)) (kv : String × Endpoint)
    (ep : Endpoint) (h : ep ∈ p.delBlock owned dIdx kv) :
    mapGet dIdx kv.1 = none ∧ kv.2.DNSName ∈ owned ∧
      (ep = kv.2 ∨ ep = p.ownershipTXTFor kv.2.DNSName) := by
  unfold Plan.delBlock at h
  by_cases h1 : (mapGet dIdx kv.1).isSome
  · rw [if_pos h1] at h; cases h
  · rw [if_neg h1] at h
    by_cases h2 : (owned.contains kv.2.DNSName) = true
    · rw [if_pos h2] at h
      refine ⟨Option.not_isSome_iff_eq_none.mp h1, by simpa using h2, ?_⟩
      rcases List.mem_cons.mp h with he | he
      · exact Or.inl he
      · exact Or.inr (List.mem_singleton.mp he)
    · rw [if_neg h2] at h; cases h

lemma createBlock_mem_elim (p : Plan) (cIdx : List (String × Endpoint))
    (kv : String × Endpoint) (ep : Endpoint) (h : ep ∈ p.createBlock cIdx kv) :
    mapGet cIdx kv.1 = none ∧ (ep = kv.2 ∨ ep = p.ownershipTXTFor kv.2.DNSName) := by
  cases hm : mapGet cIdx kv.1 with
  | some hv => simp [Plan.createBlock, hm] at h
  | none =>
    simp only [Plan.createBlock, hm] at h
    refine ⟨rfl, ?_⟩
    rcases List.mem_cons.mp h with he | he
    · exact Or.inl he
    · exact Or.inr (List.mem_singleton.mp he)

lemma createBlock_of_none (p : Plan) (cIdx : List (String × Endpoint))
    (kv : String × Endpoint) (h : mapGet cIdx kv.1 = none) :
    p.createBlock cIdx kv = [kv.2, p.ownershipTXTFor kv.2.DNSName] := by
  simp [Plan.createBlock, h]

/-- C1, amended: provided no DNS name contains the key separator `|`, every
endpoint in `UpdateOld` has its DNS name in the owned set built from
`current`, and every endpoint in `Delete` either has its DNS name in the
owned set or is the generated ownership sidecar of an owned name. -/
theorem calculate_ownership_safety (p : Plan) (desired current : List Endpoint)
    (hd : ∀ e ∈ desired, '|' ∉ e.DNSName.data)
    (hc : ∀ e ∈ current, '|' ∉ e.DNSName.data) :
    (∀ ep ∈ (p.Calculate desired current).UpdateOld,
        ep.DNSName ∈ p.buildOwnedSet current) ∧
    (∀ ep ∈ (p.Calculate desired current).Delete,
        ep.DNSName ∈ p.buildOwnedSet current ∨
          ∃ n ∈ p.buildOwnedSet current, ep = p.ownershipTXTFor n) := by
  have hC : p.Calculate desired current =
      p.calculateOn current (indexEndpoints desired)
        (indexEndpoints (filterOwnershipTXTs current)) := rfl
  rw [hC, calculateOn_eq]
  constructor
  · intro ep hep
    simp only [List.mem_map] at hep
    obtain ⟨pair, hpair, hfst⟩ := hep
    rw [List.mem_flatten] at hpair
    obtain ⟨bl, hbl, hpairbl⟩ := hpair
    rw [List.mem_map] at hbl
    obtain ⟨kv, hkv, hblk⟩ := hbl
    subst hblk
    obtain ⟨hv, hm, hpe, hown, _⟩ := updBlock_mem_elim p _ _ kv pair hpairbl
    have hmemc := mapGet_mem _ _ _ hm
    have hinfoc := indexEndpoints_mem _ _ hmemc
    have hinfod := indexEndpoints_mem _ _ hkv
    have hvcur : hv ∈ current := List.mem_of_mem_filter hinfoc.2
    have hkeq : epKey hv = epKey kv.2 := by rw [← hinfoc.1, hinfod.1]
    have hname : hv.DNSName = kv.2.DNSName :=
      epKey_inj_name hv kv.2 (hc hv hvcur) (hd kv.2 hinfod.2) hkeq
    rw [← hfst, hpe]
    simpa [hname] using hown
  · intro ep hep
    rw [List.mem_flatten] at hep
    obtain ⟨bl, hbl, hepbl⟩ := hep
    rw [List.mem_map] at hbl
    obtain ⟨kv, hkv, hblk⟩ := hbl
    subst hblk
    obtain ⟨_, hown, hcases⟩ := delBlock_mem_elim p _ _ kv ep hepbl
    rcases hcases with he | he
    · left; rw [he]; exact hown
    · right; exact ⟨kv.2.DNSName, hown, he⟩

/-- C1, witness: the amended theorem applied to a concrete update scenario
shows the updated record's name is owned. -/
theorem calculate_ownership_safety_wit :
    epApp.DNSName ∈ planDefault.buildOwnedSet [epApp, sidecarApp] :=
  (calculate_ownership_safety planDefault [epAppNew] [epApp, sidecarApp]
    (by decide) (by decide)).1 epApp (by decide)

/-! ## C3: index construction in Plan.Calculate -/

/-- C3, counterexample: a desired endpoint that is itself an ownership TXT
sidecar is indexed (desired is not filtered) and, with an empty current
state, produces a create — refuting the claim that `desiredIdx` filters out
ownership sidecars and that such an endpoint never produces a create. -/
theorem calculate_desired_sidecar_creates :
    scDesired.RecordType = RecordTypeTXT ∧
    goHasPre scDesired.DNSName ownerPre = true ∧
    (planDefault.Calculate [scDesired] []).Create.get? 0 = some scDesired := by
  decide

/-- C3, amended: both indexes are keyed by `(dnsName, recordType)` with
last-wins on duplicates, and `currentIdx` is built after filtering ownership
TXT sidecars; `desiredIdx`, however, is built over `desired` unfiltered, so
a desired ownership sidecar whose key is absent from `currentIdx` produces
a create. -/
theorem calculate_index_asymmetry :
    (∀ (eps1 eps2 : List Endpoint) (ep : Endpoint),
      (∀ e ∈ eps2, epKey e ≠ epKey ep) →
      mapGet (indexEndpoints (eps1 ++ ep :: eps2)) (epKey ep) = some ep) ∧
    (∀ (current : List Endpoint) (k : String) (v : Endpoint),
      mapGet (indexEndpoints (filterOwnershipTXTs current)) k = some v →
      (v.RecordType == RecordTypeTXT && goHasPre v.DNSName ownerPre) = false) ∧
    (∀ (p : Plan) (desired current : List Endpoint) (ep : Endpoint),
      mapGet (indexEndpoints desired) (epKey ep) = some ep →
      mapGet (indexEndpoints (filterOwnershipTXTs current)) (epKey ep) = none →
      ep ∈ (p.Calculate desired current).Create) := by
  refine ⟨indexEndpoints_last_wins, ?_, ?_⟩
  · intro current k v hm
    have hmem := mapGet_mem _ _ _ hm
    have hinfo := indexEndpoints_mem _ _ hmem
    have hf : v ∈ filterOwnershipTXTs current := hinfo.2
    unfold filterOwnershipTXTs at hf
    have h2 := List.of_mem_filter hf
    rcases (by simpa using h2 :
        ¬v.RecordType = RecordTypeTXT ∨ goHasPre v.DNSName ownerPre = false) with h3 | h3
    · simp [h3]
    · simp [h3]
  · intro p desired current ep hmd hmc
    have hC : p.Calculate desired current =
        p.calculateOn current (indexEndpoints desired)
          (indexEndpoints (filterOwnershipTXTs current)) := rfl
    rw [hC, calculateOn_eq]
    have hmem := mapGet_mem _ _ _ hmd
    rw [List.mem_flatten]
    refine ⟨p.createBlock (indexEndpoints (filterOwnershipTXTs current)) (epKey ep, ep),
      List.mem_map.mpr ⟨(epKey ep, ep), hmem, rfl⟩, ?_⟩
    rw [createBlock_of_none p _ (epKey ep, ep) hmc]
    exact List.mem_cons_self _ _

/-- C3, witness: the third part applied to the concrete desired sidecar. -/
theorem calculate_index_asymmetry_wit :
    scDesired ∈ (planDefault.Calculate [scDesired] []).Create :=
  calculate_index_asymmetry.2.2 planDefault [scDesired] [] scDesired
    (by decide) (by decide)

/-! ## C4: determinism of Plan.Calculate -/

/-- C4, counterexample: the Go map `range` order is arbitrary; visiting the
same `desiredIdx` entries in two different (both valid) orders yields change
sets whose `Create` sequences are ordered differently, so two invocations on
the same inputs need not produce the same ordered output. -/
theorem calculate_map_order_dependent :
    (indexEndpoints [epB, epApp]).Perm (indexEndpoints [epApp, epB]) ∧
    planDefault.calculateOn [] (indexEndpoints [epApp, epB]) [] ≠
      planDefault.calculateOn [] (indexEndpoints [epB, epApp]) [] := by
  decide

/-- C4, amended: `Plan.Calculate` is deterministic up to the map iteration
order — any two enumerations of the same desired and current indexes yield
change sets equal as multisets: the `Create` and `Delete` sequences and the
sequence of `(UpdateOld, UpdateNew)` pairs are permutations of one another,
and emptiness agrees. -/
theorem calculate_perm_determinism (p : Plan) (current : List Endpoint)
    (d1 d2 c1 c2 : List (String × Endpoint))
    (hd : d1.Perm d2) (hc : c1.Perm c2)
    (hnd : (mapKeys d2).Nodup) (hnc : (mapKeys c2).Nodup) :
    (p.calculateOn current d1 c1).Create.Perm (p.calculateOn current d2 c2).Create ∧
    ((p.calculateOn current d1 c1).UpdateOld.zip
        (p.calculateOn current d1 c1).UpdateNew).Perm
      ((p.calculateOn current d2 c2).UpdateOld.zip
        (p.calculateOn current d2 c2).UpdateNew) ∧
    (p.calculateOn current d1 c1).Delete.Perm (p.calculateOn current d2 c2).Delete ∧
    (p.calculateOn current d1 c1).IsEmpty = (p.calculateOn current d2 c2).IsEmpty := by
  have hgc : ∀ k, mapGet c1 k = mapGet c2 k := mapGet_perm c1 c2 hc hnc
  have hgd : ∀ k, mapGet d1 k = mapGet d2 k := mapGet_perm d1 d2 hd hnd
  have hcb : p.createBlock c1 = p.createBlock c2 := by
    funext kv; unfold Plan.createBlock; rw [hgc kv.1]
  have hub : p.updBlock (p.buildOwnedSet current) c1 =
      p.updBlock (p.buildOwnedSet current) c2 := by
    funext kv; unfold Plan.updBlock; rw [hgc kv.1]
  have hdb : p.delBlock (p.buildOwnedSet current) d1 =
      p.delBlock (p.buildOwnedSet current) d2 := by
    funext kv; unfold Plan.delBlock; rw [hgd kv.1]
  rw [calculateOn_eq, calculateOn_eq]
  have hCr : ((d1.map (p.createBlock c1)).flatten).Perm
      ((d2.map (p.createBlock c2)).flatten) := by
    rw [hcb]; exact (hd.map (p.createBlock c2)).flatten
  have hUp : ((d1.map (p.updBlock (p.buildOwnedSet current) c1)).flatten).Perm
      ((d2.map (p.updBlock (p.buildOwnedSet current) c2)).flatten) := by
    rw [hub]; exact (hd.map (p.updBlock (p.buildOwnedSet current) c2)).flatten
  have hDe : ((c1.map (p.delBlock (p.buildOwnedSet current) d1)).flatten).Perm
      ((c2.map (p.delBlock (p.buildOwnedSet current) d2)).flatten) := by
    rw [hdb]; exact (hc.map (p.delBlock (p.buildOwnedSet current) d2)).flatten
  have hzip : ∀ (l : List (Endpoint × Endpoint)),
      (l.map Prod.fst).zip (l.map Prod.snd) = l := by
    intro l
    rw [List.zip_map']
    simp
  refine ⟨hCr, ?_, hDe, ?_⟩
  · rw [hzip, hzip]; exact hUp
  · unfold Changes.IsEmpty
    simp only [List.length_map]
    rw [hCr.length_eq, hUp.length_eq, hDe.length_eq]

/-- C4, witness: the amended theorem applied to two concrete enumeration
orders of the same desired index. -/
theorem calculate_perm_determinism_wit :
    (planDefault.calculateOn [] (indexEndpoints [epApp, epB]) []).Create.Perm
      (planDefault.calculateOn [] (indexEndpoints [epB, epApp]) []).Create :=
  (calculate_perm_determinism planDefault [] (indexEndpoints [epApp, epB])
    (indexEndpoints [epB, epApp]) [] [] (by decide) (by decide) (by decide)
    (by decide)).1

/-! ## C6: create scenario with exact sidecar format -/

/-- C6: for one desired A record and empty current state, `Create` holds
exactly the A record followed by the ownership TXT sidecar named
`external-dns-docker-owner.app.example.com` with TTL 300 and the single
target `heritage=external-dns-docker,external-dns-docker/owner=` followed by
the configured owner ID; the other three sequences are empty. -/
theorem calculate_create_scenario (p : Plan) :
    p.Calculate [Endpoint.New "app.example.com" ["1.2.3.4"] RecordTypeA 300 none] [] =
      { Create := [Endpoint.New "app.example.com" ["1.2.3.4"] RecordTypeA 300 none,
          { DNSName := "external-dns-docker-owner.app.example.com"
            Targets :=
              ["heritage=external-dns-docker,external-dns-docker/owner=" ++ p.ownerID]
            RecordType := RecordTypeTXT
            TTL := 300
            Labels := [] }]
        UpdateOld := []
        UpdateNew := []
        Delete := [] } := by
  rfl

/-! ## Controller (package `controller`) -/

/-- Model of `time.Duration` wrap-around: signed 64-bit overflow semantics
of Go's multiplication. -/
def wrap64 (x : Int) : Int := (x + 2 ^ 63) % 2 ^ 64 - 2 ^ 63

/-- `Controller.backoffDuration`: doubling backoff with the shift exponent
clamped to `[0, 20]`, the product capped at `BackoffMax`. -/
def backoffDuration (backoffBase backoffMax : Int) (consecutiveErrors : Int) : Int :=
  let shift0 := consecutiveErrors - 1
  let shift1 := if shift0 < 0 then 0 else shift0
  let shift := if shift1 > 20 then 20 else shift1
  let d := wrap64 (backoffBase * 2 ^ shift.toNat)
  if d > backoffMax then backoffMax else d

/-- Environment of one reconciliation cycle: the results the source and
provider would return, and the dry-run flag. -/
structure CycleEnv where
  desiredRes : Except String (List Endpoint)
  currentRes : Except String (List Endpoint)
  applyRes : Option String
  dryRun : Bool

/-- Model of `Controller.reconcile`: the cycle's returned error.  Follows
the fetch-desired, fetch-current, plan, empty-check, dry-run, apply order of
the source. -/
def reconcileResult (p : Plan) (env : CycleEnv) : Option String :=
  match env.desiredRes with
  | .error e => some ("fetch desired endpoints: " ++ e)
  | .ok desired =>
    match env.currentRes with
    | .error e => some ("fetch current records: " ++ e)
    | .ok current =>
      let changes := p.Calculate desired current
      if changes.IsEmpty then none
      else if env.dryRun then none
      else
        match env.applyRes with
        | some e => some ("apply changes: " ++ e)
        | none => none

/-- The deferred block of `Controller.reconcile` as it affects `ready`: on
success it stores `true`; on error it leaves the flag unchanged. -/
def readyAfter (ready : Bool) (retErr : Option String) : Bool :=
  match retErr with
  | none => true
  | some _ => ready

/-- The `ready` flag after a sequence of reconciliation cycles, starting
from the atomic boolean's zero value `false` in a fresh controller. -/
def runCycles (p : Plan) (ready0 : Bool) (envs : List CycleEnv) : Bool :=
  envs.foldl (fun r env => readyAfter r (reconcileResult p env)) ready0

/-! ## C2: the ready flag -/

/-- A cycle environment in which everything succeeds trivially. -/
def envOk : CycleEnv := { desiredRes := .ok [], currentRes := .ok [], applyRes := none, dryRun := false }

/-- A cycle environment whose desired-endpoint fetch fails. -/
def envBad : CycleEnv :=
  { desiredRes := .error "boom", currentRes := .ok [], applyRes := none, dryRun := false }

/-- C2, counterexample: after a successful cycle followed by a failed cycle
the flag is still `true`, although the most recent completed cycle failed —
the error path of `reconcile` never stores `false`. -/
theorem ready_not_reset_on_failure :
    runCycles planDefault false [envOk, envBad] = true ∧
    reconcileResult planDefault envBad = some "fetch desired endpoints: boom" := by
  decide

lemma runCycles_or (p : Plan) (envs : List CycleEnv) :
    ∀ r0 : Bool, runCycles p r0 envs =
      (r0 || envs.any (fun env => (reconcileResult p env).isNone)) := by
  induction envs with
  | nil => intro r0; simp [runCycles]
  | cons env rest ih =>
    intro r0
    have hstep : runCycles p r0 (env :: rest) =
        runCycles p (readyAfter r0 (reconcileResult p env)) rest := rfl
    rw [hstep, ih]
    cases hres : reconcileResult p env with
    | none => simp [readyAfter, hres]
    | some e => simp [readyAfter, hres]

/-- C2, amended: `ready` is stored `true` on every successful cycle and left
unchanged on every failed cycle, so after any sequence of cycles `IsReady`
is `true` exactly when at least one cycle so far has succeeded (false→true
on first success, never reset). -/
theorem ready_monotone (p : Plan) :
    (∀ r : Bool, readyAfter r none = true) ∧
    (∀ (r : Bool) (e : String), readyAfter r (some e) = r) ∧
    (∀ envs : List CycleEnv,
      runCycles p false envs = true ↔ ∃ env ∈ envs, reconcileResult p env = none) := by
  refine ⟨fun r => rfl, fun r e => rfl, ?_⟩
  intro envs
  rw [runCycles_or p envs false]
  simp [List.any_eq_true, Option.isNone_iff_eq_none]

/-- C2, witness: one successful cycle flips the flag to `true`. -/
theorem ready_monotone_wit : runCycles planDefault false [envOk] = true :=
  ((ready_monotone planDefault).2.2 [envOk]).mpr
    ⟨envOk, List.mem_singleton.mpr rfl, by decide⟩

/-! ## C5: the backoff law -/

lemma backoff_closed (base maxB n : Int) (hb : 0 < base)
    (hnov : base * 2 ^ 20 < 2 ^ 63) (hn : 1 ≤ n) :
    backoffDuration base maxB n = min maxB (base * 2 ^ (min (n - 1) 20).toNat) := by
  simp only [backoffDuration]
  have h0 : ¬n - 1 < 0 := by omega
  rw [if_neg h0]
  have hsh : (if n - 1 > 20 then 20 else n - 1) = min (n - 1) 20 := by
    rcases le_or_lt (n - 1) 20 with h | h
    · rw [if_neg (by omega), min_eq_left h]
    · rw [if_pos h, min_eq_right (le_of_lt h)]
  rw [hsh]
  have hexp : (min (n - 1) 20).toNat ≤ 20 := by omega
  have hpow : (2 : Int) ^ (min (n - 1) 20).toNat ≤ 2 ^ 20 :=
    pow_le_pow_right (by norm_num) hexp
  have hdlt : base * 2 ^ (min (n - 1) 20).toNat < 2 ^ 63 :=
    lt_of_le_of_lt (mul_le_mul_of_nonneg_left hpow (le_of_lt hb)) hnov
  have hdpos : 0 < base * 2 ^ (min (n - 1) 20).toNat :=
    mul_pos hb (pow_pos (by norm_num) _)
  have hwrap : wrap64 (base * 2 ^ (min (n - 1) 20).toNat) =
      base * 2 ^ (min (n - 1) 20).toNat := by
    unfold wrap64
    rw [Int.emod_eq_of_lt (by omega) (by omega)]
    omega
  rw [hwrap]
  rcases le_or_lt (base * 2 ^ (min (n - 1) 20).toNat) maxB with h | h
  · rw [if_neg (by omega), min_eq_right h]
  · rw [if_pos h, min_eq_left (le_of_lt h)]

/-- C5: for `n ≥ 1` and a sane configuration (positive base, base at most
max, no 64-bit overflow at the capped shift), `backoffDuration n` equals
`min(backoffMax, backoffBase · 2^(n-1))` with the shift exponent clamped to
20; hence `backoffDuration 1 = backoffBase`, the function is monotone
non-decreasing, and it never exceeds `backoffMax`. -/
theorem backoff_law (base maxB n : Int) (hb : 0 < base) (hbm : base ≤ maxB)
    (hnov : base * 2 ^ 20 < 2 ^ 63) (hn : 1 ≤ n) :
    backoffDuration base maxB n = min maxB (base * 2 ^ (min (n - 1) 20).toNat) ∧
    backoffDuration base maxB 1 = base ∧
    backoffDuration base maxB n ≤ backoffDuration base maxB (n + 1) ∧
    backoffDuration base maxB n ≤ maxB := by
  refine ⟨backoff_closed base maxB n hb hnov hn, ?_, ?_, ?_⟩
  · rw [backoff_closed base maxB 1 hb hnov le_rfl]
    norm_num
    exact hbm
  · rw [backoff_closed base maxB n hb hnov hn,
      backoff_closed base maxB (n + 1) hb hnov (by omega)]
    refine min_le_min le_rfl ?_
    refine mul_le_mul_of_nonneg_left ?_ (le_of_lt hb)
    refine pow_le_pow_right (by norm_num) ?_
    omega
  · rw [backoff_closed base maxB n hb hnov hn]
    exact min_le_left _ _

/-- C5, witness: at the default configuration (base 5s, max 5m in
nanoseconds) the first backoff equals the base. -/
theorem backoff_law_wit :
    backoffDuration 5000000000 300000000000 1 = 5000000000 :=
  (backoff_law 5000000000 300000000000 1 (by norm_num) (by norm_num)
    (by norm_num) (by norm_num)).2.1

/-! ## Multi-zone router (package `rfc2136`, multizone.go) -/

/-- The match condition of `MultiProvider.zoneFor` for one zone entry: the
query name (trailing dot stripped) equals the zone FQDN with its trailing
dot stripped, or ends in `"." + zone`. -/
def zoneMatches (name z : String) : Bool :=
  name == goTrimSuf z "." || goHasSuf name ("." ++ goTrimSuf z ".")

/-- One iteration of the `zoneFor` loop: record the entry when it matches
and its stripped zone is strictly longer than the best so far. -/
def zoneForStep (name : String) (acc : Option String × Nat) (z : String) :
    Option String × Nat :=
  if zoneMatches name z = true ∧ acc.2 < goLen (goTrimSuf z ".") then
    (some z, goLen (goTrimSuf z "."))
  else acc

/-- `MultiProvider.zoneFor`: longest-suffix zone match over the entry list,
returning the matched entry's (dot-terminated) zone string. -/
def zoneFor (zones : List String) (dnsName : String) : Option String :=
  let name := goTrimSuf dnsName "."
  (zones.foldl (zoneForStep name) (none, 0)).1

lemma zoneForStep_pos (name : String) (b : Option String) (bl : Nat) (z : String)
    (hcond : zoneMatches name z = true ∧ bl < goLen (goTrimSuf z ".")) :
    zoneForStep name (b, bl) z = (some z, goLen (goTrimSuf z ".")) := by
  unfold zoneForStep
  rw [if_pos hcond]

lemma zoneForStep_neg (name : String) (b : Option String) (bl : Nat) (z : String)
    (hcond : ¬(zoneMatches name z = true ∧ bl < goLen (goTrimSuf z "."))) :
    zoneForStep name (b, bl) z = (b, bl) := by
  unfold zoneForStep
  rw [if_neg hcond]

lemma zoneFor_fold_len_mono (name : String) :
    ∀ (zones : List String) (b : Option String) (bl : Nat),
      bl ≤ (zones.foldl (zoneForStep name) (b, bl)).2 := by
  intro zones
  induction zones with
  | nil => intro b bl; exact le_rfl
  | cons z rest ih =>
    intro b bl
    rw [List.foldl_cons]
    by_cases hcond : zoneMatches name z = true ∧ bl < goLen (goTrimSuf z ".")
    · rw [zoneForStep_pos name b bl z hcond]
      exact le_trans (le_of_lt hcond.2) (ih _ _)
    · rw [zoneForStep_neg name b bl z hcond]
      exact ih _ _

lemma zoneFor_fold_ub (name : String) :
    ∀ (zones : List String) (b : Option String) (bl : Nat),
      ∀ z ∈ zones, zoneMatches name z = true →
        goLen (goTrimSuf z ".") ≤ (zones.foldl (zoneForStep name) (b, bl)).2 := by
  intro zones
  induction zones with
  | nil => intro b bl z hz; cases hz
  | cons z0 rest ih =>
    intro b bl z hz hm
    rw [List.foldl_cons]
    rcases List.mem_cons.mp hz with he | hrest
    · subst he
      by_cases hcond : zoneMatches name z = true ∧ bl < goLen (goTrimSuf z ".")
      · rw [zoneForStep_pos name b bl z hcond]
        exact zoneFor_fold_len_mono name rest _ _
      · rw [zoneForStep_neg name b bl z hcond]
        have hle : goLen (goTrimSuf z ".") ≤ bl := by
          by_contra hlt
          exact hcond ⟨hm, by omega⟩
        exact le_trans hle (zoneFor_fold_len_mono name rest _ _)
    · by_cases hcond : zoneMatches name z0 = true ∧ bl < goLen (goTrimSuf z0 ".")
      · rw [zoneForStep_pos name b bl z0 hcond]
        exact ih _ _ z hrest hm
      · rw [zoneForStep_neg name b bl z0 hcond]
        exact ih _ _ z hrest hm

lemma zoneFor_fold_provenance (name : String) :
    ∀ (zones : List String) (b : Option String) (bl : Nat),
      ((zones.foldl (zoneForStep name) (b, bl)).1 = b ∧
          (zones.foldl (zoneForStep name) (b, bl)).2 = bl) ∨
        (∃ z ∈ zones, (zones.foldl (zoneForStep name) (b, bl)).1 = some z ∧
          zoneMatches name z = true ∧
          goLen (goTrimSuf z ".") = (zones.foldl (zoneForStep name) (b, bl)).2 ∧
          0 < (zones.foldl (zoneForStep name) (b, bl)).2) := by
  intro zones
  induction zones with
  | nil => intro b bl; exact Or.inl ⟨rfl, rfl⟩
  | cons z rest ih =>
    intro b bl
    rw [List.foldl_cons]
    by_cases hcond : zoneMatches name z = true ∧ bl < goLen (goTrimSuf z ".")
    · rw [zoneForStep_pos name b bl z hcond]
      rcases ih (some z) (goLen (goTrimSuf z ".")) with ⟨h1, h2⟩ | ⟨z', hz', h1, h2, h3, h4⟩
      · refine Or.inr ⟨z, List.mem_cons_self _ _, h1, hcond.1, h2.symm, ?_⟩
        rw [h2]; omega
      · exact Or.inr ⟨z', List.mem_cons_of_mem _ hz', h1, h2, h3, h4⟩
    · rw [zoneForStep_neg name b bl z hcond]
      rcases ih b bl with h | ⟨z', hz', h1, h2, h3, h4⟩
      · exact Or.inl h
      · exact Or.inr ⟨z', List.mem_cons_of_mem _ hz', h1, h2, h3, h4⟩

/-- C7, counterexample: with the single zone entry `"."` (the root zone,
whose stripped FQDN is empty) and query name `"."`, the entry matches the
stripped name, yet `zoneFor` returns nothing, because a zero-length zone can
never exceed the initial best length 0 — refuting "returns among the
matching entries the one with the longest zone string, and returns nothing
when no entry matches". -/
theorem zoneFor_root_zone_cex :
    zoneMatches (goTrimSuf "." ".") "." = true ∧ zoneFor ["."] "." = none := by
  decide

/-- C7, amended: `zoneFor` strips the query's trailing dot and considers the
entries whose stripped zone FQDN equals the name or is a `"." + zone`
suffix of it; it returns an entry of maximal stripped-zone length among the
matching entries whose stripped zone is non-empty, and returns nothing
exactly when every matching entry has an empty stripped zone (in particular
when no entry matches). -/
theorem zoneFor_longest_match (zones : List String) (dnsName : String) :
    (zoneFor zones dnsName = none ↔
      ∀ z ∈ zones, zoneMatches (goTrimSuf dnsName ".") z = true →
        goLen (goTrimSuf z ".") = 0) ∧
    (∀ z, zoneFor zones dnsName = some z →
      z ∈ zones ∧ zoneMatches (goTrimSuf dnsName ".") z = true ∧
        0 < goLen (goTrimSuf z ".") ∧
        ∀ z' ∈ zones, zoneMatches (goTrimSuf dnsName ".") z' = true →
          goLen (goTrimSuf z' ".") ≤ goLen (goTrimSuf z ".")) := by
  constructor
  · constructor
    · intro hnone z hz hm
      have hub := zoneFor_fold_ub (goTrimSuf dnsName ".") zones none 0 z hz hm
      rcases zoneFor_fold_provenance (goTrimSuf dnsName ".") zones none 0 with
        ⟨h1, h2⟩ | ⟨z', hz', h1, h2, h3, h4⟩
      · rw [h2] at hub; omega
      · rw [show zoneFor zones dnsName =
          (zones.foldl (zoneForStep (goTrimSuf dnsName ".")) (none, 0)).1 from rfl] at hnone
        rw [hnone] at h1
        cases h1
    · intro hall
      rcases zoneFor_fold_provenance (goTrimSuf dnsName ".") zones none 0 with
        ⟨h1, h2⟩ | ⟨z', hz', h1, h2, h3, h4⟩
      · exact h1
      · have := hall z' hz' h2
        omega
  · intro z hsome
    rcases zoneFor_fold_provenance (goTrimSuf dnsName ".") zones none 0 with
      ⟨h1, h2⟩ | ⟨z', hz', h1, h2, h3, h4⟩
    · rw [show zoneFor zones dnsName =
        (zones.foldl (zoneForStep (goTrimSuf dnsName ".")) (none, 0)).1 from rfl] at hsome
      rw [h1] at hsome
      cases hsome
    · have hzz : z' = z := by
        rw [show zoneFor zones dnsName =
          (zones.foldl (zoneForStep (goTrimSuf dnsName ".")) (none, 0)).1 from rfl] at hsome
        rw [h1] at hsome
        exact Option.some.injEq _ _ ▸ hsome.symm ▸ rfl
      subst hzz
      refine ⟨hz', h2, by omega, ?_⟩
      intro w hw hwm
      have := zoneFor_fold_ub (goTrimSuf dnsName ".") zones none 0 w hw hwm
      omega

/-- C7, witness: the amended theorem applied to a two-zone list routes
`api.sub.example.com` to the longer zone `sub.example.com.`. -/
theorem zoneFor_longest_match_wit :
    "sub.example.com." ∈ ["example.com.", "sub.example.com."] ∧
    0 < goLen (goTrimSuf "sub.example.com." ".") :=
  have h := (zoneFor_longest_match ["example.com.", "sub.example.com."]
    "api.sub.example.com").2 "sub.example.com." (by decide)
  ⟨h.1, h.2.2.1⟩

/-- The endpoint-bucketing pass of `MultiProvider.ApplyChanges` for one of
the `Create`/`Delete` slices: each endpoint is appended to the bucket of its
`zoneFor` zone; endpoints with no matching zone are skipped (logged at warn
in the source). -/
def multiBucketEps (zones : List String) (eps : List Endpoint) : String → List Endpoint :=
  eps.foldl (fun acc ep =>
    match zoneFor zones ep.DNSName with
    | none => acc
    | some z => fun z' => if z' = z then acc z' ++ [ep] else acc z') (fun _ => [])

/-- The update-pair bucketing pass of `MultiProvider.ApplyChanges`, the
loop `for i, old := range UpdateOld` that buckets `old` by its zone and,
when `i < len(UpdateNew)`, the corresponding `UpdateNew[i]` into the same
zone's bucket (embedded as simultaneous recursion on the two slices). -/
def multiBucketUpd (zones : List String) :
    List Endpoint → List Endpoint → (String → List Endpoint) × (String → List Endpoint)
  | [], _ => (fun _ => [], fun _ => [])
  | old :: olds, news =>
    let rest := multiBucketUpd zones olds news.tail
    match zoneFor zones old.DNSName with
    | none => rest
    | some z =>
      (fun z' => if z' = z then old :: rest.1 z' else rest.1 z',
        match news with
        | [] => rest.2
        | newEp :: _ => fun z' => if z' = z then newEp :: rest.2 z' else rest.2 z')

/-- The per-zone `byZone` map of `MultiProvider.ApplyChanges` after all
three bucketing passes. -/
def multiBuckets (zones : List String) (changes : Changes) : String → Changes :=
  fun z =>
    { Create := multiBucketEps zones changes.Create z
      Delete := multiBucketEps zones changes.Delete z
      UpdateOld := (multiBucketUpd zones changes.UpdateOld changes.UpdateNew).1 z
      UpdateNew := (multiBucketUpd zones changes.UpdateOld changes.UpdateNew).2 z }

/-- The dispatch loop of `MultiProvider.ApplyChanges`: for each zone entry
in order, skip empty buckets, call the sub-provider otherwise, and stop at
the first error.  Returns the trace of sub-provider calls together with the
returned error. -/
def multiApplyLoop (subApply : String → Changes → Option String)
    (byZone : String → Changes) : List String → List (String × Changes) × Option String
  | [] => ([], none)
  | z :: rest =>
    let zc := byZone z
    if zc.IsEmpty = true then multiApplyLoop subApply byZone rest
    else
      match subApply z zc with
      | some e => ([(z, zc)], some e)
      | none =>
        let r := multiApplyLoop subApply byZone rest
        ((z, zc) :: r.1, r.2)

/-- `MultiProvider.ApplyChanges` with the per-zone sub-provider calls kept
as an explicit trace. -/
def multiApplyChanges (zones : List String)
    (subApply : String → Changes → Option String) (changes : Changes) :
    List (String × Changes) × Option String :=
  multiApplyLoop subApply (multiBuckets zones changes) zones

lemma filter_cons_false {α : Type} (p : α → Bool) (a : α) (l : List α)
    (h : p a = false) : List.filter p (a :: l) = List.filter p l := by
  rw [List.filter_cons, h]; simp

lemma filter_cons_true {α : Type} (p : α → Bool) (a : α) (l : List α)
    (h : p a = true) : List.filter p (a :: l) = a :: List.filter p l := by
  rw [List.filter_cons, h]; simp

lemma beq_zone_false (z0 z : String) (he : ¬z = z0) : (some z0 == some z) = false := by
  simp only [beq_eq_false_iff_ne, ne_eq, Option.some.injEq]
  exact fun h => he h.symm

lemma multiBucketEps_spec (zones : List String) :
    ∀ (eps : List Endpoint) (f : String → List Endpoint) (z : String),
      (eps.foldl (fun acc ep =>
        match zoneFor zones ep.DNSName with
        | none => acc
        | some z0 => fun z' => if z' = z0 then acc z' ++ [ep] else acc z') f) z =
        f z ++ eps.filter (fun ep => zoneFor zones ep.DNSName == some z) := by
  intro eps
  induction eps with
  | nil => intro f z; simp
  | cons ep rest ih =>
    intro f z
    rw [List.foldl_cons]
    cases hz : zoneFor zones ep.DNSName with
    | none =>
      simp only [hz]
      rw [ih f z, filter_cons_false _ ep _ (by rw [hz]; rfl)]
    | some z0 =>
      simp only [hz]
      rw [ih _ z]
      by_cases he : z = z0
      · subst he
        rw [filter_cons_true _ ep _ (by rw [hz]; simp)]
        simp [List.append_assoc]
      · rw [filter_cons_false _ ep _ (by rw [hz]; exact beq_zone_false z0 z he)]
        simp [if_neg he]

lemma multiBucketUpd_fst (zones : List String) :
    ∀ (olds news : List Endpoint) (z : String),
      (multiBucketUpd zones olds news).1 z =
        olds.filter (fun o => zoneFor zones o.DNSName == some z) := by
  intro olds
  induction olds with
  | nil => intro news z; rfl
  | cons old rest ih =>
    intro news z
    unfold multiBucketUpd
    cases hz : zoneFor zones old.DNSName with
    | none =>
      simp only [hz]
      rw [filter_cons_false _ old _ (by rw [hz]; rfl)]
      exact ih news.tail z
    | some z0 =>
      simp only [hz]
      by_cases he : z = z0
      · subst he
        rw [filter_cons_true _ old _ (by rw [hz]; simp), if_pos rfl]
        rw [ih news.tail z]
      · rw [filter_cons_false _ old _ (by rw [hz]; exact beq_zone_false z0 z he),
          if_neg he]
        exact ih news.tail z

lemma multiBucketUpd_snd (zones : List String) :
    ∀ (olds news : List Endpoint) (z : String),
      (multiBucketUpd zones olds news).2 z =
        ((olds.zip news).filter
          (fun pr => zoneFor zones pr.1.DNSName == some z)).map Prod.snd := by
  intro olds
  induction olds with
  | nil => intro news z; rfl
  | cons old rest ih =>
    intro news z
    unfold multiBucketUpd
    cases news with
    | nil =>
      simp only [List.tail_nil]
      cases hz : zoneFor zones old.DNSName with
      | none => simp only [hz]; rw [ih [] z]; simp
      | some z0 =>
        simp only [hz]
        rw [ih [] z]
        simp
    | cons newEp newsRest =>
      simp only [List.tail_cons]
      cases hz : zoneFor zones old.DNSName with
      | none =>
        simp only [hz]
        rw [List.zip_cons_cons,
          filter_cons_false _ (old, newEp) _ (by rw [hz]; rfl)]
        exact ih newsRest z
      | some z0 =>
        simp only [hz]
        by_cases he : z = z0
        · subst he
          rw [List.zip_cons_cons,
            filter_cons_true _ (old, newEp) _ (by rw [hz]; simp), if_pos rfl,
            List.map_cons]
          rw [ih newsRest z]
        · rw [List.zip_cons_cons,
            filter_cons_false _ (old, newEp) _
              (by rw [hz]; exact beq_zone_false z0 z he),
            if_neg he]
          exact ih newsRest z

lemma multiApplyLoop_mem (subApply : String → Changes → Option String)
    (byZone : String → Changes) :
    ∀ (zones : List String) (pr : String × Changes),
      pr ∈ (multiApplyLoop subApply byZone zones).1 →
      pr.1 ∈ zones ∧ pr.2 = byZone pr.1 ∧ pr.2.IsEmpty = false := by
  intro zones
  induction zones with
  | nil => intro pr hpr; cases hpr
  | cons z rest ih =>
    intro pr hpr
    unfold multiApplyLoop at hpr
    by_cases hemp : (byZone z).IsEmpty = true
    · rw [if_pos hemp] at hpr
      obtain ⟨h1, h2, h3⟩ := ih pr hpr
      exact ⟨List.mem_cons_of_mem _ h1, h2, h3⟩
    · rw [if_neg hemp] at hpr
      cases hsub : subApply z (byZone z) with
      | some e =>
        rw [hsub] at hpr
        rcases List.mem_singleton.mp hpr with he
        subst he
        exact ⟨List.mem_cons_self _ _, rfl,
          Bool.not_eq_true _ ▸ Bool.of_not_eq_true hemp⟩
      | none =>
        rw [hsub] at hpr
        rcases List.mem_cons.mp hpr with he | hr
        · subst he
          exact ⟨List.mem_cons_self _ _, rfl,
            Bool.not_eq_true _ ▸ Bool.of_not_eq_true hemp⟩
        · obtain ⟨h1, h2, h3⟩ := ih pr hr
          exact ⟨List.mem_cons_of_mem _ h1, h2, h3⟩

lemma multiApplyLoop_all_ok (subApply : String → Changes → Option String)
    (byZone : String → Changes) :
    ∀ zones : List String,
      (∀ z ∈ zones, subApply z (byZone z) = none) →
      (multiApplyLoop subApply byZone zones).2 = none ∧
      (multiApplyLoop subApply byZone zones).1 =
        (zones.filter (fun z => (byZone z).IsEmpty = false)).map
          (fun z => (z, byZone z)) := by
  intro zones
  induction zones with
  | nil => intro _; exact ⟨rfl, rfl⟩
  | cons z rest ih =>
    intro hok
    have hz := hok z (List.mem_cons_self _ _)
    have hrest := ih (fun w hw => hok w (List.mem_cons_of_mem _ hw))
    unfold multiApplyLoop
    by_cases hemp : (byZone z).IsEmpty = true
    · rw [if_pos hemp]
      refine ⟨hrest.1, ?_⟩
      rw [hrest.2]
      have hpred : (decide ((byZone z).IsEmpty = false)) = false := by
        simp [hemp]
      rw [filter_cons_false _ z _ hpred]
    · rw [if_neg hemp, hz]
      dsimp only
      refine ⟨hrest.1, ?_⟩
      have hpred : (decide ((byZone z).IsEmpty = false)) = true := by
        simp [Bool.of_not_eq_true hemp]
      rw [filter_cons_true _ z _ hpred, List.map_cons, hrest.2]

lemma multiApplyLoop_err (subApply : String → Changes → Option String)
    (byZone : String → Changes) :
    ∀ (zones : List String) (e : String),
      (multiApplyLoop subApply byZone zones).2 = some e →
      ∃ pre z zc, (multiApplyLoop subApply byZone zones).1 = pre ++ [(z, zc)] ∧
        subApply z zc = some e ∧ ∀ pr ∈ pre, subApply pr.1 pr.2 = none := by
  intro zones
  induction zones with
  | nil => intro e he; cases he
  | cons z rest ih =>
    intro e he
    simp only [multiApplyLoop] at he ⊢
    by_cases hemp : (byZone z).IsEmpty = true
    · rw [if_pos hemp] at he ⊢
      exact ih e he
    · rw [if_neg hemp] at he ⊢
      cases hsub : subApply z (byZone z) with
      | some e0 =>
        rw [hsub] at he
        have he0 : e0 = e := by simpa using he
        refine ⟨[], z, byZone z, ?_, ?_, by intro pr hpr; cases hpr⟩
        · simp [hsub]
        · rw [hsub, he0]
      | none =>
        rw [hsub] at he
        have he' : (multiApplyLoop subApply byZone rest).2 = some e := he
        obtain ⟨pre, z', zc', h1, h2, h3⟩ := ih e he'
        refine ⟨(z, byZone z) :: pre, z', zc', ?_, h2, ?_⟩
        · simp only [hsub]
          rw [List.cons_append, h1]
        · intro pr hpr
          rcases List.mem_cons.mp hpr with hh | hh
          · subst hh; exact hsub
          · exact h3 pr hh

/-- C8: multi-zone apply routing.  Buckets are exactly the longest-suffix
routing of each slice (`UpdateNew[i]` travels with `UpdateOld[i]`'s zone);
every sub-provider call in the trace is for a listed zone with that zone's
non-empty bucket (zones with no scheduled work and unmatched endpoints are
skipped); when all calls succeed the loop visits exactly the non-empty
buckets in order and returns no error; and a returned error is the first
sub-provider error, which aborts the loop. -/
theorem multi_apply_routing (zones : List String)
    (subApply : String → Changes → Option String) (changes : Changes) :
    (∀ z : String,
      (multiBuckets zones changes z).Create =
        changes.Create.filter (fun ep => zoneFor zones ep.DNSName == some z) ∧
      (multiBuckets zones changes z).Delete =
        changes.Delete.filter (fun ep => zoneFor zones ep.DNSName == some z) ∧
      (multiBuckets zones changes z).UpdateOld =
        changes.UpdateOld.filter (fun ep => zoneFor zones ep.DNSName == some z) ∧
      (multiBuckets zones changes z).UpdateNew =
        ((changes.UpdateOld.zip changes.UpdateNew).filter
          (fun pr => zoneFor zones pr.1.DNSName == some z)).map Prod.snd) ∧
    (∀ pr ∈ (multiApplyChanges zones subApply changes).1,
      pr.1 ∈ zones ∧ pr.2 = multiBuckets zones changes pr.1 ∧
        pr.2.IsEmpty = false) ∧
    ((∀ z ∈ zones, subApply z (multiBuckets zones changes z) = none) →
      (multiApplyChanges zones subApply changes).2 = none ∧
      (multiApplyChanges zones subApply changes).1 =
        (zones.filter (fun z => (multiBuckets zones changes z).IsEmpty = false)).map
          (fun z => (z, multiBuckets zones changes z))) ∧
    (∀ e : String, (multiApplyChanges zones subApply changes).2 = some e →
      ∃ pre z zc, (multiApplyChanges zones subApply changes).1 = pre ++ [(z, zc)] ∧
        subApply z zc = some e ∧ ∀ pr ∈ pre, subApply pr.1 pr.2 = none) := by
  refine ⟨?_, ?_, ?_, ?_⟩
  · intro z
    refine ⟨multiBucketEps_spec zones changes.Create (fun _ => []) z, ?_, ?_, ?_⟩
    · exact multiBucketEps_spec zones changes.Delete (fun _ => []) z
    · exact multiBucketUpd_fst zones changes.UpdateOld changes.UpdateNew z
    · exact multiBucketUpd_snd zones changes.UpdateOld changes.UpdateNew z
  · exact multiApplyLoop_mem subApply (multiBuckets zones changes) zones
  · exact multiApplyLoop_all_ok subApply (multiBuckets zones changes) zones
  · exact multiApplyLoop_err subApply (multiBuckets zones changes) zones

/-- An endpoint under the sub-zone, for the routing witness. -/
def apiEp : Endpoint := Endpoint.New "api.sub.example.com" ["1.2.3.4"] RecordTypeA 300 none

/-- C8, witness: with zones `example.com.` and `sub.example.com.` and one
create under the sub-zone, an all-successful apply returns no error and the
trace visits exactly the sub-zone. -/
theorem multi_apply_routing_wit :
    (multiApplyChanges ["example.com.", "sub.example.com."] (fun _ _ => none)
      { Create := [apiEp] }).2 = none :=
  ((multi_apply_routing ["example.com.", "sub.example.com."] (fun _ _ => none)
    { Create := [apiEp] }).2.2.1 (fun z hz => rfl)).1

/-! ## RFC2136 single-zone provider (package `rfc2136`) -/

/-- `rrType`: map an endpoint record type string to the miekg/dns type
code (`dns.TypeA` = 1, `dns.TypeAAAA` = 28, `dns.TypeCNAME` = 5,
`dns.TypeTXT` = 16, `dns.TypeNone` = 0). -/
def rrType (rt : String) : Nat :=
  if rt = RecordTypeA then 1
  else if rt = RecordTypeAAAA then 28
  else if rt = RecordTypeCNAME then 5
  else if rt = RecordTypeTXT then 16
  else 0

/-- Go `uint32(x)` conversion of an `int64` TTL. -/
def uint32cast (x : Int) : Int := x % 2 ^ 32

/-- `Provider.effectiveTTL`: enforce `MinTTL` when configured. -/
def effectiveTTL (minTTL ttl : Int) : Int :=
  if minTTL > 0 ∧ ttl < minTTL then minTTL else ttl

/-- The record data of one wire RR. -/
inductive RData where
  | a (ip : Nat × Nat × Nat × Nat)
  | aaaa (ip : GoIP)
  | cname (target : String)
  | txt (txt : List String)
deriving DecidableEq

/-- One miekg/dns resource record as this provider builds it. -/
structure RR where
  Name : String
  Rrtype : Nat
  Ttl : Int
  Rdata : RData
deriving DecidableEq

/-- The shared RR header of `Provider.endpointToRRs` combined with the
branch's record data. -/
def mkRR (name rt : String) (ttl : Int) (rd : RData) : RR :=
  { Name := name, Rrtype := rrType rt, Ttl := ttl, Rdata := rd }

/-- The per-target loop of `Provider.endpointToRRs`: build one RR per
target, aborting the whole endpoint on the first invalid target or on an
unsupported record type. -/
def targetsToRRs (name rt : String) (ttl : Int) : List String → Except String (List RR)
  | [] => .ok []
  | t :: ts =>
    if rt = RecordTypeA then
      match goTo4 (goParseIP t) with
      | none => .error ("invalid IPv4 address " ++ t ++ " for A record")
      | some q =>
        match targetsToRRs name rt ttl ts with
        | .error e => .error e
        | .ok rest => .ok (mkRR name rt ttl (.a q) :: rest)
    else if rt = RecordTypeAAAA then
      match goParseIP t with
      | none => .error ("invalid IPv6 address " ++ t ++ " for AAAA record")
      | some ip =>
        match targetsToRRs name rt ttl ts with
        | .error e => .error e
        | .ok rest => .ok (mkRR name rt ttl (.aaaa ip) :: rest)
    else if rt = RecordTypeCNAME then
      match targetsToRRs name rt ttl ts with
      | .error e => .error e
      | .ok rest => .ok (mkRR name rt ttl (.cname (goFqdn t)) :: rest)
    else if rt = RecordTypeTXT then
      match targetsToRRs name rt ttl ts with
      | .error e => .error e
      | .ok rest => .ok (mkRR name rt ttl (.txt [t]) :: rest)
    else .error ("unsupported record type " ++ rt)

/-- `Provider.endpointToRRs`: one RR per target with the effective TTL
(headers carry the `uint32` cast of it) and the FQDN-normalized name. -/
def endpointToRRs (minTTL : Int) (ep : Endpoint) : Except String (List RR) :=
  targetsToRRs (goFqdn ep.DNSName) ep.RecordType
    (uint32cast (effectiveTTL minTTL ep.TTL)) ep.Targets

/-- One section entry of the RFC2136 UPDATE message: `m.Remove` or
`m.Insert` of a record set. -/
inductive UpdateOp where
  | remove (rrs : List RR)
  | insert (rrs : List RR)
deriving DecidableEq

/-- The delete pass of `Provider.ApplyChanges`: remove each convertible
endpoint, skip (with a warning in the source) endpoints that fail
conversion. -/
def deleteOps (minTTL : Int) (dels : List Endpoint) : List UpdateOp :=
  dels.foldl (fun ops ep =>
    match endpointToRRs minTTL ep with
    | .error _ => ops
    | .ok rrs => ops ++ [.remove rrs]) []

/-- The update pass of `Provider.ApplyChanges`: the loop
`for i, old := range UpdateOld` that removes the old RRs and, when
`i < len(UpdateNew)` and the new endpoint converts, inserts the new RRs
(embedded as simultaneous recursion on the two slices).  A failing old
endpoint skips the whole pair; a failing new endpoint skips only the
insert, after the remove was already added. -/
def updateOps (minTTL : Int) : List Endpoint → List Endpoint → List UpdateOp
  | [], _ => []
  | old :: olds, [] =>
    match endpointToRRs minTTL old with
    | .error _ => updateOps minTTL olds []
    | .ok rrs => .remove rrs :: updateOps minTTL olds []
  | old :: olds, newEp :: newsRest =>
    match endpointToRRs minTTL old with
    | .error _ => updateOps minTTL olds newsRest
    | .ok rrs =>
      .remove rrs ::
        (match endpointToRRs minTTL newEp with
         | .error _ => updateOps minTTL olds newsRest
         | .ok newRRs => .insert newRRs :: updateOps minTTL olds newsRest)

/-- The create pass of `Provider.ApplyChanges`. -/
def createOps (minTTL : Int) (crs : List Endpoint) : List UpdateOp :=
  crs.foldl (fun ops ep =>
    match endpointToRRs minTTL ep with
    | .error _ => ops
    | .ok rrs => ops ++ [.insert rrs]) []

/-- The single UPDATE message `Provider.ApplyChanges` assembles: deletes,
then update pairs, then creates. -/
def applyChangesMsg (minTTL : Int) (changes : Changes) : List UpdateOp :=
  deleteOps minTTL changes.Delete ++
    updateOps minTTL changes.UpdateOld changes.UpdateNew ++
    createOps minTTL changes.Create

/-- `Provider.ApplyChanges` with the TSIG-signed exchange abstracted as a
function from the assembled message to a transport error or a response
code (`dns.RcodeSuccess` = 0). -/
def rfcApplyChanges (minTTL : Int) (changes : Changes)
    (exchange : List UpdateOp → Except String Nat) : Except String Unit :=
  if changes.IsEmpty = true then .ok ()
  else
    match exchange (applyChangesMsg minTTL changes) with
    | .error e => .error ("dns update exchange: " ++ e)
    | .ok rcode => if rcode ≠ 0 then .error "dns update failed" else .ok ()

lemma foldl_ops_filterMap (g : List RR → UpdateOp) (minTTL : Int) :
    ∀ (l : List Endpoint) (acc : List UpdateOp),
      l.foldl (fun ops ep =>
        match endpointToRRs minTTL ep with
        | .error _ => ops
        | .ok rrs => ops ++ [g rrs]) acc =
      acc ++ l.filterMap (fun ep => (endpointToRRs minTTL ep).toOption.map g) := by
  intro l
  induction l with
  | nil => intro acc; simp
  | cons ep rest ih =>
    intro acc
    rw [List.foldl_cons]
    cases hc : endpointToRRs minTTL ep with
    | error e =>
      simp only [hc]
      rw [ih acc, List.filterMap_cons]
      simp [hc, Except.toOption]
    | ok rrs =>
      simp only [hc]
      rw [ih (acc ++ [g rrs]), List.filterMap_cons]
      simp [hc, Except.toOption]

lemma deleteOps_spec (minTTL : Int) (dels : List Endpoint) :
    deleteOps minTTL dels =
      dels.filterMap
        (fun ep => (endpointToRRs minTTL ep).toOption.map UpdateOp.remove) := by
  unfold deleteOps
  rw [foldl_ops_filterMap UpdateOp.remove minTTL dels []]
  simp

lemma createOps_spec (minTTL : Int) (crs : List Endpoint) :
    createOps minTTL crs =
      crs.filterMap
        (fun ep => (endpointToRRs minTTL ep).toOption.map UpdateOp.insert) := by
  unfold createOps
  rw [foldl_ops_filterMap UpdateOp.insert minTTL crs []]
  simp

/-- The update pairs the loop visits: `UpdateOld[i]` together with
`UpdateNew[i]` when that index exists. -/
def goPairs : List Endpoint → List Endpoint → List (Endpoint × Option Endpoint)
  | [], _ => []
  | o :: os, news => (o, news.head?) :: goPairs os news.tail

/-- The UPDATE-message contribution of one update pair. -/
def pairOps (minTTL : Int) (pr : Endpoint × Option Endpoint) : List UpdateOp :=
  match endpointToRRs minTTL pr.1 with
  | .error _ => []
  | .ok rrs =>
    .remove rrs ::
      (match pr.2 with
       | none => []
       | some newEp =>
         match endpointToRRs minTTL newEp with
         | .error _ => []
         | .ok newRRs => [.insert newRRs])

lemma updateOps_eq_pairs (minTTL : Int) :
    ∀ (olds news : List Endpoint),
      updateOps minTTL olds news =
        ((goPairs olds news).map (pairOps minTTL)).flatten := by
  intro olds
  induction olds with
  | nil => intro news; rfl
  | cons old rest ih =>
    intro news
    cases news with
    | nil =>
      rw [show goPairs (old :: rest) [] = (old, none) :: goPairs rest [] from rfl]
      rw [List.map_cons, List.flatten_cons, ← ih []]
      cases hold : endpointToRRs minTTL old with
      | error e => simp [updateOps, pairOps, hold]
      | ok rrs => simp [updateOps, pairOps, hold]
    | cons newEp newsRest =>
      rw [show goPairs (old :: rest) (newEp :: newsRest) =
        (old, some newEp) :: goPairs rest newsRest from rfl]
      rw [List.map_cons, List.flatten_cons, ← ih newsRest]
      cases hold : endpointToRRs minTTL old with
      | error e => simp [updateOps, pairOps, hold]
      | ok rrs =>
        cases hnew : endpointToRRs minTTL newEp with
        | error e => simp [updateOps, pairOps, hold, hnew]
        | ok newRRs => simp [updateOps, pairOps, hold, hnew]

lemma goPairs_get (i : Nat) :
    ∀ (olds news : List Endpoint) (o n : Endpoint),
      olds.get? i = some o → news.get? i = some n →
      (o, some n) ∈ goPairs olds news := by
  induction i with
  | zero =>
    intro olds news o n ho hn
    cases olds with
    | nil => cases ho
    | cons o0 os =>
      cases news with
      | nil => cases hn
      | cons n0 ns =>
        have ho' : o0 = o := by simpa using ho
        have hn' : n0 = n := by simpa using hn
        subst ho'; subst hn'
        exact List.mem_cons_self _ _
  | succ i ih =>
    intro olds news o n ho hn
    cases olds with
    | nil => cases ho
    | cons o0 os =>
      cases news with
      | nil => cases hn
      | cons n0 ns =>
        have ho' : os.get? i = some o := by simpa using ho
        have hn' : ns.get? i = some n := by simpa using hn
        exact List.mem_cons_of_mem _ (ih os ns o n ho' hn')

/-! ## C9: wire-conversion failure tolerance -/

/-- C9: a change-set endpoint that fails conversion (invalid A/AAAA address
or unsupported type) is skipped on its own: the delete and create sections
of the UPDATE message consist of exactly the convertible endpoints' record
sets, and when the exchange reports success `ApplyChanges` succeeds no
matter how many conversions failed. -/
theorem rfc2136_apply_skips_invalid (minTTL : Int) (changes : Changes)
    (exchange : List UpdateOp → Except String Nat)
    (hex : ∀ m, exchange m = .ok 0) :
    rfcApplyChanges minTTL changes exchange = .ok () ∧
    deleteOps minTTL changes.Delete =
      changes.Delete.filterMap
        (fun ep => (endpointToRRs minTTL ep).toOption.map UpdateOp.remove) ∧
    createOps minTTL changes.Create =
      changes.Create.filterMap
        (fun ep => (endpointToRRs minTTL ep).toOption.map UpdateOp.insert) ∧
    (∀ ep rrs, ep ∈ changes.Create → endpointToRRs minTTL ep = .ok rrs →
      UpdateOp.insert rrs ∈ applyChangesMsg minTTL changes) ∧
    (∀ ep rrs, ep ∈ changes.Delete → endpointToRRs minTTL ep = .ok rrs →
      UpdateOp.remove rrs ∈ applyChangesMsg minTTL changes) := by
  refine ⟨?_, deleteOps_spec minTTL changes.Delete, createOps_spec minTTL changes.Create,
    ?_, ?_⟩
  · unfold rfcApplyChanges
    by_cases he : changes.IsEmpty = true
    · rw [if_pos he]
    · rw [if_neg he, hex (applyChangesMsg minTTL changes)]
      simp
  · intro ep rrs hmem hconv
    unfold applyChangesMsg
    rw [List.mem_append]
    right
    rw [createOps_spec]
    exact List.mem_filterMap.mpr ⟨ep, hmem, by rw [hconv]; rfl⟩
  · intro ep rrs hmem hconv
    unfold applyChangesMsg
    rw [List.mem_append]
    left
    rw [List.mem_append]
    left
    rw [deleteOps_spec]
    exact List.mem_filterMap.mpr ⟨ep, hmem, by rw [hconv]; rfl⟩

/-- An A endpoint with an unparseable address. -/
def badA : Endpoint := Endpoint.New "app.example.com" ["not-an-ip"] RecordTypeA 300 none

/-- C9, witness: a change set mixing an invalid and a valid create still
applies successfully when the exchange succeeds. -/
theorem rfc2136_apply_skips_invalid_wit :
    rfcApplyChanges 0 { Create := [badA, epApp] } (fun _ => .ok 0) = .ok () :=
  (rfc2136_apply_skips_invalid 0 { Create := [badA, epApp] } (fun _ => .ok 0)
    (fun _ => rfl)).1

/-! ## C10: update pair with failing new endpoint -/

/-- C10: when `UpdateOld[i]` converts but `UpdateNew[i]` does not, the pair
contributes exactly the removal of the old record set to the UPDATE message
— the remove is added before the failure is detected and the insert is
skipped — and `ApplyChanges` still succeeds when the exchange succeeds, so
the old record is deleted without a replacement. -/
theorem rfc2136_update_old_removed_new_skipped (minTTL : Int) (changes : Changes)
    (exchange : List UpdateOp → Except String Nat) (i : Nat)
    (old newEp : Endpoint) (rrs : List RR) (e : String)
    (ho : changes.UpdateOld.get? i = some old)
    (hn : changes.UpdateNew.get? i = some newEp)
    (hcold : endpointToRRs minTTL old = .ok rrs)
    (hcnew : endpointToRRs minTTL newEp = .error e)
    (hex : ∀ m, exchange m = .ok 0) :
    pairOps minTTL (old, some newEp) = [UpdateOp.remove rrs] ∧
    UpdateOp.remove rrs ∈ applyChangesMsg minTTL changes ∧
    rfcApplyChanges minTTL changes exchange = .ok () := by
  have hpair : pairOps minTTL (old, some newEp) = [UpdateOp.remove rrs] := by
    unfold pairOps
    rw [hcold]
    simp [hcnew]
  refine ⟨hpair, ?_, ?_⟩
  · unfold applyChangesMsg
    rw [List.mem_append]
    left
    rw [List.mem_append]
    right
    rw [updateOps_eq_pairs]
    rw [List.mem_flatten]
    refine ⟨pairOps minTTL (old, some newEp), ?_, ?_⟩
    · exact List.mem_map.mpr
        ⟨(old, some newEp), goPairs_get i _ _ old newEp ho hn, rfl⟩
    · rw [hpair]
      exact List.mem_singleton.mpr rfl
  · unfold rfcApplyChanges
    by_cases hemp : changes.IsEmpty = true
    · rw [if_pos hemp]
    · rw [if_neg hemp, hex (applyChangesMsg minTTL changes)]
      simp

/-- The wire RR of the concrete A record `app.example.com → 1.2.3.4`. -/
def appRR : RR := { Name := "app.example.com.", Rrtype := 1, Ttl := 300, Rdata := .a (1, 2, 3, 4) }

/-- C10, witness: with a convertible old endpoint and an invalid new one,
the old record's removal is in the message and the apply succeeds. -/
theorem rfc2136_update_old_removed_new_skipped_wit :
    UpdateOp.remove [appRR] ∈
      applyChangesMsg 0 { UpdateOld := [epApp], UpdateNew := [badA] } ∧
    rfcApplyChanges 0 { UpdateOld := [epApp], UpdateNew := [badA] }
      (fun _ => .ok 0) = .ok () :=
  have h := rfc2136_update_old_removed_new_skipped 0
    { UpdateOld := [epApp], UpdateNew := [badA] } (fun _ => .ok 0) 0 epApp badA
    [appRR] "invalid IPv4 address not-an-ip for A record"
    (by decide) (by decide) (by rfl) (by rfl) (fun _ => rfl)
  ⟨h.2.1, h.2.2⟩
